import Mathlib

/-!
Verification of the transfer pipeline of this repository: the in-memory
progress store (`src/server/storage.ts`), the streaming download manager
(`src/server/downloader.ts`), the delivery / batch logic of the chat bot
handlers, and the file splitter (whose module `./file-splitter` is absent
from the sources and is therefore modelled from the spec).
-/

namespace AnimeBot

/-- `DownloadProgress` from `src/server/storage.ts`.  `startTime` is a
natural-number timestamp; `status` is a plain string as in the source. -/
structure DownloadProgress where
  fileName : String
  fileSize : Nat
  downloadedBytes : Nat
  status : String
  url : String
  startTime : Nat
deriving DecidableEq, Repr

/-- The `downloadProgress : Map<string, DownloadProgress>` field of
`MemStorage`, modelled as an insertion-ordered association list. -/
abbrev Store := List (String × DownloadProgress)

/-- `MemStorage.updateDownloadProgress(url, progress)`: JavaScript
`Map.set` semantics — replace the value under an existing key in place,
otherwise append a new entry. -/
def updateDownloadProgress (s : Store) (url : String) (p : DownloadProgress) : Store :=
  if s.any (fun kv => kv.1 == url) then
    s.map (fun kv => if kv.1 == url then (kv.1, p) else kv)
  else s ++ [(url, p)]

/-- `MemStorage.getActiveDownloads()`: `Array.from(this.downloadProgress.values())`. -/
def getActiveDownloads (s : Store) : List DownloadProgress :=
  s.map (fun kv => kv.2)

/-- The read performed by the chunk handler in `handleDownload`:
`storage.getActiveDownloads().find(d => d.url === url)`. -/
def findProgress (s : Store) (url : String) : Option DownloadProgress :=
  (getActiveDownloads s).find? (fun d => d.url == url)

/-- `MemStorage.stopAllDownloads()`: every entry of the map is rewritten
with status `stopped` (the source loop has no status guard). -/
def stopAllDownloads (s : Store) : Store :=
  s.map (fun kv => (kv.1, { kv.2 with status := "stopped" }))

/-- Stores reachable in the running system: the record kept under a key is
a snapshot whose `url` field equals that key.  Every writer in the source
passes a snapshot carrying its own URL, and `stopAllDownloads` preserves
the `url` field, so this invariant holds for every reachable store. -/
def wfStore (s : Store) : Prop := ∀ kv ∈ s, kv.2.url = kv.1

/-- One observable step of a streaming download in `handleDownload`: a
data chunk of the given byte length arrives, an external actor runs
`stopAllDownloads` on the shared store, or the stream dies with an error
message. -/
inductive Ev where
  | chunk : Nat → Ev
  | stopAll : Ev
  | netFail : String → Ev
deriving DecidableEq, Repr

/-- `DownloadResult` from `src/server/downloader.ts`. -/
structure DownloadResult where
  filePath : String
  fileName : String
  fileSize : Nat
deriving DecidableEq, Repr

/-- State at the end of the streaming loop: final store, local byte
counter, the log of store states readable under the transfer's URL after
each store mutation, and the pipeline error if the stream aborted. -/
structure LoopOut where
  store : Store
  downloadedBytes : Nat
  writes : List DownloadProgress
  err : Option String
deriving Repr

/-- The `response.data.on('data', ...)` loop of `handleDownload`
(`src/server/downloader.ts:67-92`): each chunk first bumps the local
counter (`downloadedBytes += chunk.length`), then re-reads the store
record for `url`; if its status is `stopped` the stream is destroyed and
the pipeline fails with `Download stopped by user`, otherwise the updated
snapshot (spread of the original `progress` object) is pushed to the
store.  A `stopAll` step applies `stopAllDownloads` to the shared store;
a `netFail` step ends the pipeline with a stream error. -/
def runLoop (url : String) (base : DownloadProgress) :
    List Ev → Store → Nat → List DownloadProgress → LoopOut
  | [], s, db, ws => ⟨s, db, ws, none⟩
  | Ev.stopAll :: evs, s, db, ws =>
      let s' := stopAllDownloads s
      runLoop url base evs s' db (ws ++ (findProgress s' url).toList)
  | Ev.netFail msg :: _, s, db, ws => ⟨s, db, ws, some msg⟩
  | Ev.chunk sz :: evs, s, db, ws =>
      let db' := db + sz
      match findProgress s url with
      | some cp =>
          if cp.status = "stopped" then ⟨s, db', ws, some "Download stopped by user"⟩
          else
            let p := { base with downloadedBytes := db', status := "downloading" }
            runLoop url base evs (updateDownloadProgress s url p) db' (ws ++ [p])
      | none =>
          let p := { base with downloadedBytes := db', status := "downloading" }
          runLoop url base evs (updateDownloadProgress s url p) db' (ws ++ [p])

/-- Model of node's `path.basename` as used on the URL: the suffix after
the last slash. -/
def basename (p : String) : String :=
  String.mk (((p.data.reverse).takeWhile (fun c => c != '/')).reverse)

/-- File-name resolution in `handleDownload`: `path.basename(url)`,
overridden by the captured group of the `Content-Disposition` header's
`filename=` pattern when the header is present and the pattern matches
(`dispositionName` is that captured group, if any). -/
def resolveFileName (url : String) (dispositionName : Option String) : String :=
  match dispositionName with
  | some n => n
  | none => basename url

/-- `path.join(DOWNLOAD_DIR, fileName)` with
`DOWNLOAD_DIR = path.join(process.cwd(), 'downloads')`, relative to the
process working directory.  Join is modelled as plain concatenation; the
real `path.join` additionally normalizes `.` and `..` segments, so this
model may only support facts that hold for an arbitrary function of the
file name (equal names give equal paths), never injectivity in the file
name. -/
def filePathFor (fileName : String) : String := "downloads" ++ "/" ++ fileName

/-- Externally visible outcome of one `handleDownload` call: final shared
store, whether the destination file still exists, the log of store states
under the URL, and the returned value or thrown error message. -/
structure DownloadRun where
  store : Store
  fileExists : Bool
  writes : List DownloadProgress
  result : Except String DownloadResult
deriving Repr

/-- `handleDownload(url)` from `src/server/downloader.ts`: create the
initial record with status `downloading` and `downloadedBytes = 0`,
register it under `url`, stream the body through `runLoop`; on pipeline
failure delete the partially-written file and rethrow
(`Failed to download file: <message>`), on success write the final
snapshot `{downloadedBytes: contentLength, status: completed}` and return
`{filePath, fileName, fileSize: contentLength}`.  `contentLength` is the
parsed `Content-Length` header, `0` when absent. -/
def handleDownload (url : String) (dispositionName : Option String)
    (contentLength : Nat) (events : List Ev) (s0 : Store) : DownloadRun :=
  let fileName := resolveFileName url dispositionName
  let base : DownloadProgress :=
    { fileName := fileName, fileSize := contentLength, downloadedBytes := 0,
      status := "downloading", url := url, startTime := 0 }
  let s1 := updateDownloadProgress s0 url base
  let out := runLoop url base events s1 0 [base]
  match out.err with
  | some msg =>
      { store := out.store, fileExists := false, writes := out.writes,
        result := Except.error ("Failed to download file: " ++ msg) }
  | none =>
      let fin := { base with downloadedBytes := contentLength, status := "completed" }
      { store := updateDownloadProgress out.store url fin, fileExists := true,
        writes := out.writes ++ [fin],
        result := Except.ok { filePath := filePathFor fileName, fileName := fileName,
                              fileSize := contentLength } }

/-- Modelled from the spec: the bot imports `splitFile` from
`./file-splitter`, a module absent from the sources.  Per §4.3 the
splitter reads the source sequentially and emits successive parts of
exactly `maxPartBytes` bytes each, the final part possibly shorter, in
1-based index order.  A file is its list of bytes. -/
def split (maxPartBytes : Nat) : List Nat → List (List Nat)
  | [] => []
  | b :: rest =>
      (b :: rest.take (maxPartBytes - 1)) :: split maxPartBytes (rest.drop (maxPartBytes - 1))
termination_by l => l.length
decreasing_by simp [List.length_drop]; omega

/-- Modelled from the spec: the default part size of the absent
`splitFile`, the 2 GiB attachment bound that is also the split threshold
of §4.3 and the glossary. -/
def MAX_PART_BYTES : Nat := 2 * 1024 * 1024 * 1024

/-- Modelled from the spec: `splitFile(filePath)` as invoked by the bot
handlers, splitting at the default part size. -/
def splitFile (fileBytes : List Nat) : List (List Nat) :=
  split MAX_PART_BYTES fileBytes

/-- How a completed download is handed back: unsplit, or as a number of
split parts. -/
inductive Delivery where
  | single : Delivery
  | parts : Nat → Delivery
deriving DecidableEq, Repr

/-- The delivery decision of the `.mdl` and `.dl` handlers in the bot
source: `if (fileSize > 2 * 1024 * 1024 * 1024)` split the downloaded
file and send the parts, else send the single file.  `fileSize` is the
value returned by `handleDownload`; `fileBytes` is the file on disk. -/
def deliverFile (fileSize : Nat) (fileBytes : List Nat) : Delivery :=
  if fileSize > 2 * 1024 * 1024 * 1024 then Delivery.parts (splitFile fileBytes).length
  else Delivery.single

/-- Per-item aggregation of the `.mdl` handler: a resolved download bumps
`successCount`, a rejected one appends `{url, error}` to `failedUrls`. -/
def batchStep (acc : Nat × List (String × String))
    (it : String × Except String DownloadResult) : Nat × List (String × String) :=
  match it.2 with
  | Except.ok _ => (acc.1 + 1, acc.2)
  | Except.error e => (acc.1, acc.2 ++ [(it.1, e)])

/-- The `.mdl` batch summary: every per-URL promise carries its own
try/catch, so `Promise.all` collects all outcomes; the summary counts the
successes and lists the failures in order. -/
def processBatch (items : List (String × Except String DownloadResult)) :
    Nat × List (String × String) :=
  items.foldl batchStep (0, [])

/-! ### Store lemmas -/

/-- The store is well formed, holds an entry for `url`, and every entry
under that key is the snapshot `cur` (so a find-by-field read under `url`
returns `cur`). -/
def tracks (s : Store) (url : String) (cur : DownloadProgress) : Prop :=
  wfStore s ∧ cur.url = url ∧ (∃ kv ∈ s, kv.1 = url) ∧ (∀ kv ∈ s, kv.1 = url → kv.2 = cur)

lemma findProgress_of_tracks {s : Store} {url : String} {cur : DownloadProgress}
    (h : tracks s url cur) : findProgress s url = some cur := by
  obtain ⟨hwf, hcur, hex, hall⟩ := h
  induction s with
  | nil => obtain ⟨kv, hkv, _⟩ := hex; exact absurd hkv (List.not_mem_nil kv)
  | cons kv rest ih =>
    by_cases hk : kv.1 = url
    · have hv : kv.2 = cur := hall kv (List.mem_cons_self kv rest) hk
      simp only [findProgress, getActiveDownloads, List.map_cons]
      rw [hv]
      exact List.find?_cons_of_pos _ (by simp [hcur])
    · have hfield : (kv.2.url == url) = false := by
        have hwk : kv.2.url = kv.1 := hwf kv (List.mem_cons_self kv rest)
        rw [hwk]
        exact beq_eq_false_iff_ne.mpr hk
      have hstep : findProgress (kv :: rest) url = findProgress rest url := by
        simp only [findProgress, getActiveDownloads, List.map_cons]
        exact List.find?_cons_of_neg _ (by simp [hfield])
      rw [hstep]
      refine ih ?_ ?_ ?_
      · exact fun x hx => hwf x (List.mem_cons_of_mem kv hx)
      · obtain ⟨kv0, hkv0, hkey0⟩ := hex
        rcases List.mem_cons.mp hkv0 with heq | hmem
        · exact absurd (heq ▸ hkey0) hk
        · exact ⟨kv0, hmem, hkey0⟩
      · exact fun x hx hxk => hall x (List.mem_cons_of_mem kv hx) hxk

lemma tracks_update {s : Store} {url : String} (p : DownloadProgress)
    (hwf : wfStore s) (hp : p.url = url) :
    tracks (updateDownloadProgress s url p) url p := by
  unfold updateDownloadProgress
  by_cases hany : s.any (fun kv => kv.1 == url)
  · rw [if_pos hany]
    refine ⟨?_, hp, ?_, ?_⟩
    · intro kv hkv
      obtain ⟨kv0, hkv0, heq⟩ := List.mem_map.mp hkv
      by_cases h0 : kv0.1 = url
      · have : kv = (kv0.1, p) := by rw [← heq]; simp [beq_iff_eq, h0]
        rw [this]; simpa [h0] using hp
      · have : kv = kv0 := by rw [← heq]; simp [beq_iff_eq, h0]
        rw [this]; exact hwf kv0 hkv0
    · obtain ⟨kv0, hkv0, hkey0⟩ := List.any_eq_true.mp hany
      refine ⟨(kv0.1, p), List.mem_map.mpr ⟨kv0, hkv0, ?_⟩, beq_iff_eq.mp hkey0⟩
      simp [hkey0]
    · intro kv hkv hkey
      obtain ⟨kv0, hkv0, heq⟩ := List.mem_map.mp hkv
      by_cases h0 : kv0.1 = url
      · have : kv = (kv0.1, p) := by rw [← heq]; simp [beq_iff_eq, h0]
        rw [this]
      · have : kv = kv0 := by rw [← heq]; simp [beq_iff_eq, h0]
        exact absurd (this ▸ hkey) h0
  · rw [if_neg hany]
    have hnone : ∀ kv ∈ s, kv.1 ≠ url := by
      intro kv hkv hkey
      exact hany (List.any_eq_true.mpr ⟨kv, hkv, beq_iff_eq.mpr hkey⟩)
    refine ⟨?_, hp, ?_, ?_⟩
    · intro kv hkv
      rcases List.mem_append.mp hkv with hmem | hmem
      · exact hwf kv hmem
      · rcases List.mem_singleton.mp hmem with heq
        rw [heq]; exact hp
    · exact ⟨(url, p), List.mem_append.mpr (Or.inr (List.mem_singleton.mpr rfl)), rfl⟩
    · intro kv hkv hkey
      rcases List.mem_append.mp hkv with hmem | hmem
      · exact absurd hkey (hnone kv hmem)
      · rw [List.mem_singleton.mp hmem]

lemma tracks_stopAll {s : Store} {url : String} {cur : DownloadProgress}
    (h : tracks s url cur) :
    tracks (stopAllDownloads s) url { cur with status := "stopped" } := by
  obtain ⟨hwf, hcur, hex, hall⟩ := h
  refine ⟨?_, hcur, ?_, ?_⟩
  · intro kv hkv
    obtain ⟨kv0, hkv0, heq⟩ := List.mem_map.mp hkv
    rw [← heq]
    exact hwf kv0 hkv0
  · obtain ⟨kv0, hkv0, hkey0⟩ := hex
    exact ⟨(kv0.1, { kv0.2 with status := "stopped" }),
      List.mem_map.mpr ⟨kv0, hkv0, rfl⟩, hkey0⟩
  · intro kv hkv hkey
    obtain ⟨kv0, hkv0, heq⟩ := List.mem_map.mp hkv
    have hv : kv0.2 = cur := hall kv0 hkv0 (by rw [← heq] at hkey; exact hkey)
    rw [← heq, hv]

/-! ### Download-loop lemmas -/

/-- Once the record under `url` is `stopped`, the loop can only end in a
pipeline failure as soon as any further chunk or stream error arrives,
and the store keeps a `stopped` record under `url`. -/
lemma runLoop_stopped (url : String) (base : DownloadProgress) :
    ∀ (events : List Ev) (s : Store) (db : Nat) (ws : List DownloadProgress)
      (cur : DownloadProgress), tracks s url cur → cur.status = "stopped" →
      (∃ e ∈ events, e ≠ Ev.stopAll) →
      ∃ msg p, (runLoop url base events s db ws).err = some msg ∧
        tracks (runLoop url base events s db ws).store url p ∧ p.status = "stopped" := by
  intro events
  induction events with
  | nil =>
    intro s db ws cur ht hst hex
    obtain ⟨e, he, _⟩ := hex
    exact absurd he (List.not_mem_nil e)
  | cons e evs ih =>
    intro s db ws cur ht hst hex
    cases e with
    | stopAll =>
      obtain ⟨e0, he0, hne0⟩ := hex
      rcases List.mem_cons.mp he0 with heq | hmem
      · exact absurd heq hne0
      · simpa only [runLoop] using
          ih _ _ _ _ (tracks_stopAll ht) rfl ⟨e0, hmem, hne0⟩
    | netFail m =>
      exact ⟨m, cur, rfl, ht, hst⟩
    | chunk sz =>
      have hf := findProgress_of_tracks ht
      simp only [runLoop, hf, if_pos hst]
      exact ⟨"Download stopped by user", cur, rfl, ht, hst⟩

/-- If the store record is stopped during the stream (no earlier stream
error) and at least one further chunk or stream event arrives, the run
aborts and the record under `url` ends stopped. -/
lemma runLoop_stop_then (url : String) (base : DownloadProgress)
    (hb : base.url = url) :
    ∀ (pre post : List Ev) (s : Store) (db : Nat) (ws : List DownloadProgress)
      (cur : DownloadProgress), tracks s url cur →
      (∀ m, Ev.netFail m ∉ pre) → (∃ e ∈ post, e ≠ Ev.stopAll) →
      ∃ msg p, (runLoop url base (pre ++ Ev.stopAll :: post) s db ws).err = some msg ∧
        tracks (runLoop url base (pre ++ Ev.stopAll :: post) s db ws).store url p ∧
        p.status = "stopped" := by
  intro pre
  induction pre with
  | nil =>
    intro post s db ws cur ht _ hex
    simpa only [List.nil_append, runLoop] using
      runLoop_stopped url base post _ db _ _ (tracks_stopAll ht) rfl hex
  | cons e pre ih =>
    intro post s db ws cur ht hnf hex
    cases e with
    | stopAll =>
      have hnf' : ∀ m, Ev.netFail m ∉ pre :=
        fun m hm => hnf m (List.mem_cons_of_mem _ hm)
      simpa only [List.cons_append, runLoop] using
        ih post _ db _ _ (tracks_stopAll ht) hnf' hex
    | netFail m =>
      exact absurd (List.mem_cons_self _ _) (hnf m)
    | chunk sz =>
      have hf := findProgress_of_tracks ht
      have hnf' : ∀ m, Ev.netFail m ∉ pre :=
        fun m hm => hnf m (List.mem_cons_of_mem _ hm)
      by_cases hst : cur.status = "stopped"
      · simp only [List.cons_append, runLoop, hf, if_pos hst]
        exact ⟨"Download stopped by user", cur, rfl, ht, hst⟩
      · have htu := tracks_update
          { base with downloadedBytes := db + sz, status := "downloading" }
          ht.1 hb
        simpa only [List.cons_append, runLoop, hf, if_neg hst] using
          ih post _ (db + sz) _ _ htu hnf' hex

/-- Total number of bytes delivered by the chunk events of a trace. -/
def chunkSum : List Ev → Nat
  | [] => 0
  | Ev.chunk n :: es => n + chunkSum es
  | _ :: es => chunkSum es

/-- C4: if the store record of a transfer is set to `stopped` mid-stream
(no stream error before the stop) while `downloadedBytes < fileSize`, and
the stream subsequently delivers any further chunk or stream event, then
the fetch aborts: the partially-written destination file is deleted, the
call reports an error, and the record under the URL ends with terminal
status `stopped`. -/
theorem cancellation_cleanup
    (url : String) (disp : Option String) (cl : Nat) (s0 : Store)
    (pre post : List Ev)
    (hwf : wfStore s0)
    (hnf : ∀ m, Ev.netFail m ∉ pre)
    (hex : ∃ e ∈ post, e ≠ Ev.stopAll)
    (hsz : chunkSum pre < cl) :
    (handleDownload url disp cl (pre ++ Ev.stopAll :: post) s0).fileExists = false ∧
    (∃ msg, (handleDownload url disp cl (pre ++ Ev.stopAll :: post) s0).result =
      Except.error msg) ∧
    (∃ p, findProgress (handleDownload url disp cl (pre ++ Ev.stopAll :: post) s0).store url =
      some p ∧ p.status = "stopped") := by
  have ht1 : tracks (updateDownloadProgress s0 url
      { fileName := resolveFileName url disp, fileSize := cl, downloadedBytes := 0,
        status := "downloading", url := url, startTime := 0 }) url
      { fileName := resolveFileName url disp, fileSize := cl, downloadedBytes := 0,
        status := "downloading", url := url, startTime := 0 } :=
    tracks_update _ hwf rfl
  obtain ⟨msg, p, herr, htr, hst⟩ :=
    runLoop_stop_then url
      { fileName := resolveFileName url disp, fileSize := cl, downloadedBytes := 0,
        status := "downloading", url := url, startTime := 0 }
      rfl pre post _ 0
      [{ fileName := resolveFileName url disp, fileSize := cl, downloadedBytes := 0,
         status := "downloading", url := url, startTime := 0 }]
      _ ht1 hnf hex
  simp only [handleDownload, herr]
  exact ⟨trivial, ⟨_, rfl⟩, p, findProgress_of_tracks htr, hst⟩

/-- Witness for `cancellation_cleanup` at a concrete input: a 10-byte
transfer receives a 3-byte chunk, is stopped, then one more chunk
arrives. -/
theorem cancellation_cleanup_witness :
    wfStore ([] : Store) ∧ (∀ m, Ev.netFail m ∉ [Ev.chunk 3]) ∧
    (∃ e ∈ [Ev.chunk 2], e ≠ Ev.stopAll) ∧ chunkSum [Ev.chunk 3] < 10 ∧
    ((handleDownload "u" (some "f") 10 ([Ev.chunk 3] ++ Ev.stopAll :: [Ev.chunk 2]) []).fileExists
        = false ∧
      (∃ msg, (handleDownload "u" (some "f") 10
        ([Ev.chunk 3] ++ Ev.stopAll :: [Ev.chunk 2]) []).result = Except.error msg) ∧
      (∃ p, findProgress (handleDownload "u" (some "f") 10
          ([Ev.chunk 3] ++ Ev.stopAll :: [Ev.chunk 2]) []).store "u" = some p ∧
        p.status = "stopped")) := by
  refine ⟨?_, ?_, ?_, ?_, ?_⟩
  · intro kv hkv; exact absurd hkv (List.not_mem_nil kv)
  · intro m; simp
  · exact ⟨Ev.chunk 2, List.mem_singleton.mpr rfl, by simp⟩
  · decide
  · exact cancellation_cleanup "u" (some "f") 10 [] [Ev.chunk 3] [Ev.chunk 2]
      (fun kv hkv => absurd hkv (List.not_mem_nil kv))
      (fun m => by simp)
      ⟨Ev.chunk 2, List.mem_singleton.mpr rfl, by simp⟩
      (by decide)

/-- Left cancellation for string concatenation. -/
lemma string_append_cancel_left (a b c : String) (h : a ++ b = a ++ c) : b = c := by
  cases a with
  | mk da =>
    cases b with
    | mk db =>
      cases c with
      | mk dc =>
        have hd : da ++ db = da ++ dc := congrArg String.data h
        exact congrArg String.mk (List.append_cancel_left hd)

/-- After at least one `stopAll`, the next chunk makes the loop fail with
exactly the message `Download stopped by user`. -/
lemma runLoop_stops_chunk (url : String) (base : DownloadProgress) :
    ∀ (k : Nat) (s : Store) (db : Nat) (ws : List DownloadProgress)
      (cur : DownloadProgress) (sz : Nat) (rest : List Ev),
      tracks s url cur → cur.status = "stopped" →
      (runLoop url base (List.replicate k Ev.stopAll ++ Ev.chunk sz :: rest) s db ws).err =
        some "Download stopped by user" := by
  intro k
  induction k with
  | zero =>
    intro s db ws cur sz rest ht hst
    have hf := findProgress_of_tracks ht
    simp only [List.replicate, List.nil_append, runLoop, hf, if_pos hst]
  | succ k ih =>
    intro s db ws cur sz rest ht hst
    simpa only [List.replicate, List.cons_append, runLoop] using
      ih _ db _ _ sz rest (tracks_stopAll ht) rfl

/-- C5 (amended): cancellation is reported as a generic thrown error whose
message is exactly `Failed to download file: Download stopped by user`; a
stream failure with underlying message `m` is reported as
`Failed to download file: m`, so a caller can tell the two apart only by
comparing message strings, and only when `m` differs from
`Download stopped by user` — there is no distinguished error type. -/
theorem cancel_error_message
    (url : String) (disp : Option String) (cl : Nat) (s0 : Store)
    (hwf : wfStore s0) :
    (∀ (k sz : Nat) (rest : List Ev),
      (handleDownload url disp cl
        (List.replicate (k + 1) Ev.stopAll ++ Ev.chunk sz :: rest) s0).result =
        Except.error "Failed to download file: Download stopped by user") ∧
    (∀ m, (handleDownload url disp cl [Ev.netFail m] s0).result =
        Except.error ("Failed to download file: " ++ m)) ∧
    (∀ m, m ≠ "Download stopped by user" →
      (Except.error ("Failed to download file: " ++ m) : Except String DownloadResult) ≠
        Except.error "Failed to download file: Download stopped by user") := by
  refine ⟨?_, ?_, ?_⟩
  · intro k sz rest
    have ht1 : tracks (updateDownloadProgress s0 url
        { fileName := resolveFileName url disp, fileSize := cl, downloadedBytes := 0,
          status := "downloading", url := url, startTime := 0 }) url
        { fileName := resolveFileName url disp, fileSize := cl, downloadedBytes := 0,
          status := "downloading", url := url, startTime := 0 } :=
      tracks_update _ hwf rfl
    have herr : (runLoop url
        { fileName := resolveFileName url disp, fileSize := cl, downloadedBytes := 0,
          status := "downloading", url := url, startTime := 0 }
        (List.replicate (k + 1) Ev.stopAll ++ Ev.chunk sz :: rest)
        (updateDownloadProgress s0 url
          { fileName := resolveFileName url disp, fileSize := cl, downloadedBytes := 0,
            status := "downloading", url := url, startTime := 0 })
        0
        [{ fileName := resolveFileName url disp, fileSize := cl, downloadedBytes := 0,
           status := "downloading", url := url, startTime := 0 }]).err =
        some "Download stopped by user" := by
      rw [List.replicate_succ, List.cons_append]
      simpa only [runLoop] using runLoop_stops_chunk url
        { fileName := resolveFileName url disp, fileSize := cl, downloadedBytes := 0,
          status := "downloading", url := url, startTime := 0 }
        k _ 0 _ _ sz rest (tracks_stopAll ht1) rfl
    simp only [handleDownload, herr]
    have : "Failed to download file: " ++ "Download stopped by user" =
        "Failed to download file: Download stopped by user" := by decide
    simp [this]
  · intro m
    simp only [handleDownload, runLoop]
  · intro m hm heq
    have hmsg : "Failed to download file: " ++ m =
        "Failed to download file: Download stopped by user" := by
      injection heq
    have : "Failed to download file: " ++ m =
        "Failed to download file: " ++ "Download stopped by user" := by
      rw [hmsg]; decide
    exact hm (string_append_cancel_left _ _ _ this)

/-- Witness for `cancel_error_message`: the empty store is well formed and
the three message facts hold at a concrete transfer. -/
theorem cancel_error_message_witness :
    wfStore ([] : Store) ∧
    ((handleDownload "u" (some "f") 10
        (List.replicate 1 Ev.stopAll ++ Ev.chunk 1 :: []) []).result =
      Except.error "Failed to download file: Download stopped by user") ∧
    ((handleDownload "u" (some "f") 10 [Ev.netFail "ECONNRESET"] []).result =
      Except.error ("Failed to download file: " ++ "ECONNRESET")) ∧
    ((Except.error ("Failed to download file: " ++ "ECONNRESET") :
        Except String DownloadResult) ≠
      Except.error "Failed to download file: Download stopped by user") := by
  have hwf : wfStore ([] : Store) := fun kv hkv => absurd hkv (List.not_mem_nil kv)
  have h := cancel_error_message "u" (some "f") 10 [] hwf
  exact ⟨hwf, h.1 0 1 [], h.2.1 "ECONNRESET", h.2.2 "ECONNRESET" (by decide)⟩

/-- C5 (counterexample to the claim as stated): the error thrown for a
user cancellation is byte-for-byte the same value as the error thrown for
a stream failure whose underlying message happens to be
`Download stopped by user` — there is no distinguished `Cancelled` error,
only a message string. -/
theorem cancel_error_indistinguishable :
    (handleDownload "u" (some "f") 10 [Ev.stopAll, Ev.chunk 1] []).result =
      (handleDownload "u" (some "f") 10 [Ev.netFail "Download stopped by user"] []).result ∧
    (handleDownload "u" (some "f") 10 [Ev.stopAll, Ev.chunk 1] []).result =
      Except.error "Failed to download file: Download stopped by user" := by
  exact ⟨rfl, rfl⟩

/-- Invariant of the streaming loop: the log of store states under the
URL has non-decreasing `downloadedBytes` and never contains a `completed`
snapshot (the `completed` snapshot is only appended after the loop). -/
lemma runLoop_chain (url : String) (base : DownloadProgress) (hb : base.url = url) :
    ∀ (events : List Ev) (s : Store) (db : Nat) (ws : List DownloadProgress)
      (cur : DownloadProgress),
      tracks s url cur →
      ws.getLast? = some cur →
      cur.downloadedBytes ≤ db →
      List.Chain' (fun a b => a.downloadedBytes ≤ b.downloadedBytes) ws →
      (∀ q ∈ ws, q.status ≠ "completed") →
      List.Chain' (fun a b => a.downloadedBytes ≤ b.downloadedBytes)
        (runLoop url base events s db ws).writes ∧
      (∀ q ∈ (runLoop url base events s db ws).writes, q.status ≠ "completed") := by
  intro events
  induction events with
  | nil =>
    intro s db ws cur ht hlast hdb hch hstat
    exact ⟨hch, hstat⟩
  | cons e evs ih =>
    intro s db ws cur ht hlast hdb hch hstat
    cases e with
    | netFail m =>
      exact ⟨hch, hstat⟩
    | stopAll =>
      have ht' := tracks_stopAll ht
      have hf' := findProgress_of_tracks ht'
      simp only [runLoop, hf', Option.toList_some]
      refine ih _ db _ _ ht' (List.getLast?_concat ws) hdb ?_ ?_
      · refine List.chain'_append.mpr ⟨hch, List.chain'_singleton _, ?_⟩
        intro x hx y hy
        rw [hlast] at hx
        rw [Option.mem_some_iff] at hx
        simp only [List.head?_cons, Option.mem_some_iff] at hy
        rw [← hx, ← hy]
      · intro q hq
        rcases List.mem_append.mp hq with hmem | hmem
        · exact hstat q hmem
        · rw [List.mem_singleton.mp hmem]
          intro hcontra
          exact absurd hcontra (by simp)
    | chunk sz =>
      have hf := findProgress_of_tracks ht
      by_cases hst : cur.status = "stopped"
      · simp only [runLoop, hf, if_pos hst]
        exact ⟨hch, hstat⟩
      · simp only [runLoop, hf, if_neg hst]
        have htu := tracks_update
          { base with downloadedBytes := db + sz, status := "downloading" } ht.1 hb
        refine ih _ (db + sz) _ _ htu (List.getLast?_concat ws) (le_refl _) ?_ ?_
        · refine List.chain'_append.mpr ⟨hch, List.chain'_singleton _, ?_⟩
          intro x hx y hy
          rw [hlast] at hx
          rw [Option.mem_some_iff] at hx
          simp only [List.head?_cons, Option.mem_some_iff] at hy
          rw [← hx, ← hy]
          exact le_trans hdb (Nat.le_add_right db sz)
        · intro q hq
          rcases List.mem_append.mp hq with hmem | hmem
          · exact hstat q hmem
          · rw [List.mem_singleton.mp hmem]
            intro hcontra
            exact absurd hcontra (by simp)

/-- C1 (amended): for every transfer, the sequence of `downloadedBytes`
values readable under the transfer's URL is non-decreasing across every
store write before the terminal `completed` write.  (The final `completed`
write is excluded: it sets `downloadedBytes` to `fileSize`, which can be
smaller than the bytes actually received, e.g. `0` when `Content-Length`
was absent.) -/
theorem progress_monotone_before_terminal
    (url : String) (disp : Option String) (cl : Nat) (events : List Ev) (s0 : Store)
    (hwf : wfStore s0) :
    List.Chain' (· ≤ ·)
      (((handleDownload url disp cl events s0).writes.filter
        (fun q => q.status != "completed")).map (fun q => q.downloadedBytes)) := by
  have ht1 : tracks (updateDownloadProgress s0 url
      { fileName := resolveFileName url disp, fileSize := cl, downloadedBytes := 0,
        status := "downloading", url := url, startTime := 0 }) url
      { fileName := resolveFileName url disp, fileSize := cl, downloadedBytes := 0,
        status := "downloading", url := url, startTime := 0 } :=
    tracks_update _ hwf rfl
  obtain ⟨hch, hstat⟩ := runLoop_chain url
    { fileName := resolveFileName url disp, fileSize := cl, downloadedBytes := 0,
      status := "downloading", url := url, startTime := 0 }
    rfl events _ 0
    [{ fileName := resolveFileName url disp, fileSize := cl, downloadedBytes := 0,
       status := "downloading", url := url, startTime := 0 }]
    _ ht1 rfl (le_refl 0) (List.chain'_singleton _)
    (by intro q hq; rw [List.mem_singleton.mp hq]; intro hcontra; exact absurd hcontra (by simp))
  have hfilter : ∀ (l : List DownloadProgress), (∀ q ∈ l, q.status ≠ "completed") →
      l.filter (fun q => q.status != "completed") = l := by
    intro l hl
    exact List.filter_eq_self.mpr (fun a ha => bne_iff_ne.mpr (hl a ha))
  cases herr : (runLoop url
      { fileName := resolveFileName url disp, fileSize := cl, downloadedBytes := 0,
        status := "downloading", url := url, startTime := 0 }
      events
      (updateDownloadProgress s0 url
        { fileName := resolveFileName url disp, fileSize := cl, downloadedBytes := 0,
          status := "downloading", url := url, startTime := 0 })
      0
      [{ fileName := resolveFileName url disp, fileSize := cl, downloadedBytes := 0,
         status := "downloading", url := url, startTime := 0 }]).err with
  | some msg =>
    simp only [handleDownload, herr]
    rw [hfilter _ hstat, List.chain'_map]
    exact hch
  | none =>
    simp only [handleDownload, herr]
    rw [List.filter_append, hfilter _ hstat]
    have hfin : List.filter (fun (q : DownloadProgress) => q.status != "completed")
        [{ fileName := resolveFileName url disp, fileSize := cl, downloadedBytes := cl,
           status := "completed", url := url, startTime := 0 }] = [] := by
      simp [List.filter]
    rw [hfin, List.append_nil, List.chain'_map]
    exact hch

/-- Witness for `progress_monotone_before_terminal` at a concrete
transfer: one 5-byte chunk with an absent `Content-Length`. -/
theorem progress_monotone_before_terminal_witness :
    wfStore ([] : Store) ∧
    List.Chain' (· ≤ ·)
      (((handleDownload "u" (some "f") 0 [Ev.chunk 5] []).writes.filter
        (fun q => q.status != "completed")).map (fun q => q.downloadedBytes)) :=
  ⟨fun kv hkv => absurd hkv (List.not_mem_nil kv),
    progress_monotone_before_terminal "u" (some "f") 0 [Ev.chunk 5] []
      (fun kv hkv => absurd hkv (List.not_mem_nil kv))⟩

/-- C1 (counterexample to the claim as stated): with `Content-Length`
absent (`fileSize = 0`) and one 5-byte chunk, the store sequence under the
URL is `0, 5, 0` — the final write that sets the terminal `completed`
status lowers `downloadedBytes` back to `fileSize = 0`, so the sequence
up to and including the terminal write is not non-decreasing. -/
theorem progress_monotone_counterexample :
    ¬ List.Chain' (· ≤ ·)
      ((handleDownload "u" (some "f") 0 [Ev.chunk 5] []).writes.map
        (fun q => q.downloadedBytes)) := by
  have h : ((handleDownload "u" (some "f") 0 [Ev.chunk 5] []).writes.map
      (fun q => q.downloadedBytes)) = [0, 5, 0] := rfl
  rw [h]
  simp [List.chain'_cons]

/-- C2: a transfer whose stream fails mid-download (here `ECONNRESET`
after 5 of 10 bytes) reports the error to its caller, but the store
record under the URL keeps the non-terminal status `downloading` forever:
no code path in `handleDownload` ever writes `failed`, so a `listActive`
caller cannot observe the failure. -/
theorem failed_download_not_observable :
    (handleDownload "u" (some "f") 10 [Ev.chunk 5, Ev.netFail "ECONNRESET"] []).result =
      Except.error "Failed to download file: ECONNRESET" ∧
    (findProgress (handleDownload "u" (some "f") 10
        [Ev.chunk 5, Ev.netFail "ECONNRESET"] []).store "u").map (fun p => p.status) =
      some "downloading" :=
  ⟨rfl, rfl⟩

/-! ### stopAllDownloads theorems -/

/-- C3 (amended): `stopAllDownloads` sets status `stopped` on every stored
record regardless of its prior status — including records whose status is
`completed`, which are not left unchanged. -/
theorem stopAll_stops_every_record :
    ∀ (s : Store) (url : String) (p : DownloadProgress),
      findProgress s url = some p →
      findProgress (stopAllDownloads s) url = some { p with status := "stopped" } := by
  intro s url p h
  induction s with
  | nil => simp [findProgress, getActiveDownloads] at h
  | cons kv rest ih =>
    by_cases hp : (kv.2.url == url) = true
    · have hfind : findProgress (kv :: rest) url = some kv.2 := by
        simp only [findProgress, getActiveDownloads, List.map_cons]
        exact List.find?_cons_of_pos _ hp
      rw [hfind] at h
      obtain rfl : kv.2 = p := Option.some.inj h
      simp only [stopAllDownloads, findProgress, getActiveDownloads, List.map_cons]
      exact List.find?_cons_of_pos _ (by simpa using hp)
    · have hstep : findProgress (kv :: rest) url = findProgress rest url := by
        simp only [findProgress, getActiveDownloads, List.map_cons]
        exact List.find?_cons_of_neg _ (by simpa using hp)
      rw [hstep] at h
      have hrest := ih h
      simp only [stopAllDownloads, findProgress, getActiveDownloads, List.map_cons]
      rw [List.find?_cons_of_neg _ (by simpa using hp)]
      simpa [stopAllDownloads, findProgress, getActiveDownloads] using hrest

/-- A record with terminal status `completed`, as left by a finished
transfer. -/
def completedRec : DownloadProgress :=
  { fileName := "f", fileSize := 3, downloadedBytes := 3, status := "completed",
    url := "u", startTime := 0 }

/-- C3 (counterexample to the claim as stated): `stopAllDownloads` does
not leave a `completed` record unchanged — the record's status becomes
`stopped`. -/
theorem stopAll_overwrites_completed :
    (findProgress (stopAllDownloads [("u", completedRec)]) "u").map (fun p => p.status) =
      some "stopped" ∧ completedRec.status = "completed" :=
  ⟨rfl, rfl⟩

/-- Witness for `stopAll_stops_every_record` at a concrete store holding
one completed record. -/
theorem stopAll_stops_every_record_witness :
    findProgress [("u", completedRec)] "u" = some completedRec ∧
    findProgress (stopAllDownloads [("u", completedRec)]) "u" =
      some { completedRec with status := "stopped" } :=
  ⟨rfl, stopAll_stops_every_record [("u", completedRec)] "u" completedRec rfl⟩

/-- The fields of a record other than `status`. -/
def frameOf (p : DownloadProgress) : String × String × Nat × Nat × Nat :=
  (p.url, p.fileName, p.fileSize, p.downloadedBytes, p.startTime)

/-- C10: `stopAllDownloads` mutates only the `status` field: the store
keeps the same number of records, in the same order under the same keys,
and every record's `url`, `fileName`, `fileSize`, `downloadedBytes` and
`startTime` are unchanged. -/
theorem stopAll_frame (s : Store) :
    (stopAllDownloads s).length = s.length ∧
    (stopAllDownloads s).map (fun kv => (kv.1, frameOf kv.2)) =
      s.map (fun kv => (kv.1, frameOf kv.2)) := by
  constructor
  · simp [stopAllDownloads]
  · induction s with
    | nil => rfl
    | cons kv rest ih =>
      simp only [stopAllDownloads, List.map_cons] at ih ⊢
      rw [ih]
      simp [frameOf]

/-! ### Destination paths -/

/-- A successful `handleDownload` returns the destination path
`DOWNLOAD_DIR/fileName` built from the resolved file name alone. -/
lemma handleDownload_ok_shape
    (url : String) (disp : Option String) (cl : Nat) (events : List Ev) (s0 : Store)
    (r : DownloadResult)
    (h : (handleDownload url disp cl events s0).result = Except.ok r) :
    r.filePath = filePathFor (resolveFileName url disp) ∧
    r.fileName = resolveFileName url disp ∧ r.fileSize = cl := by
  cases herr : (runLoop url
      { fileName := resolveFileName url disp, fileSize := cl, downloadedBytes := 0,
        status := "downloading", url := url, startTime := 0 }
      events
      (updateDownloadProgress s0 url
        { fileName := resolveFileName url disp, fileSize := cl, downloadedBytes := 0,
          status := "downloading", url := url, startTime := 0 })
      0
      [{ fileName := resolveFileName url disp, fileSize := cl, downloadedBytes := 0,
         status := "downloading", url := url, startTime := 0 }]).err with
  | some msg =>
    simp only [handleDownload, herr] at h
    exact absurd h (by simp)
  | none =>
    simp only [handleDownload, herr] at h
    have hr := Except.ok.inj h
    rw [← hr]
    exact ⟨rfl, rfl, rfl⟩

/-- C9 (amended): the destination path of a transfer is a function of the
resolved file name alone, not of the URL — two successful transfers whose
resolved file names coincide write to the same destination path.  In
particular, distinct URLs do not guarantee distinct destination paths, so
per-transfer exclusive ownership of the destination file is not
guaranteed. -/
theorem destination_path_from_filename
    (u1 : String) (d1 : Option String) (cl1 : Nat) (ev1 : List Ev) (s1 : Store)
    (u2 : String) (d2 : Option String) (cl2 : Nat) (ev2 : List Ev) (s2 : Store)
    (r1 r2 : DownloadResult)
    (h1 : (handleDownload u1 d1 cl1 ev1 s1).result = Except.ok r1)
    (h2 : (handleDownload u2 d2 cl2 ev2 s2).result = Except.ok r2)
    (hname : r1.fileName = r2.fileName) :
    r1.filePath = r2.filePath := by
  obtain ⟨hp1, hn1, _⟩ := handleDownload_ok_shape u1 d1 cl1 ev1 s1 r1 h1
  obtain ⟨hp2, hn2, _⟩ := handleDownload_ok_shape u2 d2 cl2 ev2 s2 r2 h2
  rw [hn1, hn2] at hname
  rw [hp1, hp2, hname]

/-- C9 (counterexample to the claim as stated): two transfers with
distinct URLs but the same URL basename and no `Content-Disposition`
header resolve to the same file name and hence the same destination path
`downloads/f.bin` — the path is not unique per URL. -/
theorem distinct_urls_same_path :
    "http://a.example/f.bin" ≠ "http://b.example/f.bin" ∧
    (handleDownload "http://a.example/f.bin" none 1 [Ev.chunk 1] []).result =
      Except.ok { filePath := "downloads/f.bin", fileName := "f.bin", fileSize := 1 } ∧
    (handleDownload "http://b.example/f.bin" none 1 [Ev.chunk 1] []).result =
      Except.ok { filePath := "downloads/f.bin", fileName := "f.bin", fileSize := 1 } :=
  ⟨by decide, rfl, rfl⟩

/-- Witness for `destination_path_from_filename` at two concrete
successful transfers of distinct URLs whose resolved file names
coincide. -/
theorem destination_path_from_filename_witness :
    (handleDownload "http://x.example/d/f.bin" none 1 [Ev.chunk 1] []).result =
      Except.ok { filePath := "downloads/f.bin", fileName := "f.bin", fileSize := 1 } ∧
    (handleDownload "http://y.example/f.bin" none 2 [Ev.chunk 2] []).result =
      Except.ok { filePath := "downloads/f.bin", fileName := "f.bin", fileSize := 2 } ∧
    ({ filePath := "downloads/f.bin", fileName := "f.bin", fileSize := 1 } :
        DownloadResult).fileName =
      ({ filePath := "downloads/f.bin", fileName := "f.bin", fileSize := 2 } :
        DownloadResult).fileName ∧
    ({ filePath := "downloads/f.bin", fileName := "f.bin", fileSize := 1 } :
        DownloadResult).filePath =
      ({ filePath := "downloads/f.bin", fileName := "f.bin", fileSize := 2 } :
        DownloadResult).filePath :=
  ⟨rfl, rfl, rfl,
    destination_path_from_filename "http://x.example/d/f.bin" none 1 [Ev.chunk 1] []
      "http://y.example/f.bin" none 2 [Ev.chunk 2] [] _ _ rfl rfl rfl⟩

/-! ### Batch aggregation -/

/-- Folding `batchStep` over items that all resolved adds one success per
item and no failure entry. -/
lemma batch_foldl_ok :
    ∀ (l : List (String × Except String DownloadResult))
      (acc : Nat × List (String × String)),
      (∀ it ∈ l, ∃ v, it.2 = Except.ok v) →
      l.foldl batchStep acc = (acc.1 + l.length, acc.2) := by
  intro l
  induction l with
  | nil => intro acc _; simp
  | cons it l ih =>
    intro acc hok
    obtain ⟨v, hv⟩ := hok it (List.mem_cons_self it l)
    have hstep : batchStep acc it = (acc.1 + 1, acc.2) := by
      simp [batchStep, hv]
    rw [List.foldl_cons, hstep,
      ih _ (fun x hx => hok x (List.mem_cons_of_mem it hx))]
    simp [Nat.add_assoc, Nat.add_comm 1 l.length]

/-- C6: in a batch where exactly one URL fails and every other item
resolves, the summary reports `successCount = N - 1` and exactly one
failure entry naming the failing URL with its cause string; every other
item is still processed and counted — no failure cancels a sibling. -/
theorem batch_single_failure
    (pre post : List (String × Except String DownloadResult))
    (u e : String)
    (hpre : ∀ it ∈ pre, ∃ v, it.2 = Except.ok v)
    (hpost : ∀ it ∈ post, ∃ v, it.2 = Except.ok v) :
    processBatch (pre ++ (u, Except.error e) :: post) =
      ((pre ++ (u, Except.error e) :: post).length - 1, [(u, e)]) := by
  unfold processBatch
  rw [List.foldl_append, batch_foldl_ok pre _ hpre, List.foldl_cons]
  have hstep : batchStep (0 + pre.length, ([] : List (String × String))) (u, Except.error e) =
      (0 + pre.length, [(u, e)]) := by
    simp [batchStep]
  rw [hstep, batch_foldl_ok post _ hpost]
  simp [Nat.add_comm]

/-- Witness for `batch_single_failure`: a three-item batch whose outcomes
come from concrete `handleDownload` runs, the middle one failing. -/
theorem batch_single_failure_witness :
    (∀ it ∈ [("http://h/a.bin", (handleDownload "http://h/a.bin" none 3 [Ev.chunk 3] []).result)],
      ∃ v, it.2 = Except.ok v) ∧
    (∀ it ∈ [("http://h/c.bin", (handleDownload "http://h/c.bin" none 4 [Ev.chunk 4] []).result)],
      ∃ v, it.2 = Except.ok v) ∧
    processBatch
      ([("http://h/a.bin", (handleDownload "http://h/a.bin" none 3 [Ev.chunk 3] []).result)] ++
        ("http://h/b.bin", Except.error "Failed to download file: ECONNREFUSED") ::
        [("http://h/c.bin", (handleDownload "http://h/c.bin" none 4 [Ev.chunk 4] []).result)]) =
      (([("http://h/a.bin", (handleDownload "http://h/a.bin" none 3 [Ev.chunk 3] []).result)] ++
        ("http://h/b.bin", Except.error "Failed to download file: ECONNREFUSED") ::
        [("http://h/c.bin", (handleDownload "http://h/c.bin" none 4 [Ev.chunk 4] []).result)]).length - 1,
        [("http://h/b.bin", "Failed to download file: ECONNREFUSED")]) := by
  have hpre : ∀ it ∈ [("http://h/a.bin",
      (handleDownload "http://h/a.bin" none 3 [Ev.chunk 3] []).result)],
      ∃ v, it.2 = Except.ok v := by
    intro it hit
    rw [List.mem_singleton.mp hit]
    exact ⟨{ filePath := "downloads/a.bin", fileName := "a.bin", fileSize := 3 }, rfl⟩
  have hpost : ∀ it ∈ [("http://h/c.bin",
      (handleDownload "http://h/c.bin" none 4 [Ev.chunk 4] []).result)],
      ∃ v, it.2 = Except.ok v := by
    intro it hit
    rw [List.mem_singleton.mp hit]
    exact ⟨{ filePath := "downloads/c.bin", fileName := "c.bin", fileSize := 4 }, rfl⟩
  exact ⟨hpre, hpost,
    batch_single_failure _ _ "http://h/b.bin" "Failed to download file: ECONNREFUSED" hpre hpost⟩

/-! ### File splitter -/

/-- Concatenating the parts of `split` in index order rebuilds the source
byte list exactly. -/
theorem split_join (m : Nat) : ∀ l : List Nat, (split m l).flatten = l
  | [] => by simp [split]
  | b :: rest => by
      have ih := split_join m (rest.drop (m - 1))
      simp only [split, List.flatten_cons]
      rw [ih, List.cons_append, List.take_append_drop]
termination_by l => l.length
decreasing_by simp [List.length_drop]; omega

/-- The number of parts produced by `split` is the byte count divided by
the part size, rounded up. -/
theorem split_length (m : Nat) (hm : 0 < m) :
    ∀ l : List Nat, (split m l).length = (l.length + m - 1) / m
  | [] => by
      simp only [split, List.length_nil, List.length, Nat.zero_add]
      exact (Nat.div_eq_of_lt (Nat.sub_lt hm Nat.one_pos)).symm
  | b :: rest => by
      have ih := split_length m hm (rest.drop (m - 1))
      simp only [List.length_drop] at ih
      simp only [split, List.length_cons]
      rw [ih]
      by_cases h : m - 1 ≤ rest.length
      · have h1 : rest.length - (m - 1) + m - 1 = rest.length := by omega
        have h2 : rest.length + 1 + m - 1 = rest.length + m := by omega
        rw [h1, h2, Nat.add_div_right _ hm]
      · have h1 : rest.length - (m - 1) = 0 := by omega
        have h2 : rest.length + 1 + m - 1 = rest.length + m := by omega
        rw [h1, h2, Nat.add_div_right _ hm]
        have h3 : (0 + m - 1) / m = 0 := Nat.div_eq_of_lt (by omega)
        have h4 : rest.length / m = 0 := Nat.div_eq_of_lt (by omega)
        rw [h3, h4]
termination_by l => l.length
decreasing_by simp [List.length_drop]; omega

/-- C8: for every file and every positive part size, concatenating the
parts of `split` in index order reproduces the source file byte for byte,
and the number of parts is `ceil(fileSize / maxPartBytes)`. -/
theorem split_round_trip (file : List Nat) (m : Nat) (hm : 0 < m) :
    (split m file).flatten = file ∧
    (split m file).length = (file.length + m - 1) / m :=
  ⟨split_join m file, split_length m hm file⟩

/-- Witness for `split_round_trip` on a concrete 5-byte file with 2-byte
parts. -/
theorem split_round_trip_witness :
    0 < 2 ∧ (split 2 [1, 2, 3, 4, 5]).flatten = [1, 2, 3, 4, 5] ∧
    (split 2 [1, 2, 3, 4, 5]).length = (([1, 2, 3, 4, 5] : List Nat).length + 2 - 1) / 2 := by
  have h := split_round_trip [1, 2, 3, 4, 5] 2 (by decide)
  exact ⟨by decide, h.1, h.2⟩

/-- C7: a completed download whose `fileSize` is at most 2 GiB is
delivered unsplit; a completed download whose `fileSize` exceeds 2 GiB by
at least one byte is passed to the splitter and delivered as at least two
parts. -/
theorem split_threshold_policy (fileSize : Nat) (fileBytes : List Nat)
    (hlen : fileBytes.length = fileSize) :
    (fileSize ≤ 2 * 1024 * 1024 * 1024 → deliverFile fileSize fileBytes = Delivery.single) ∧
    (2 * 1024 * 1024 * 1024 < fileSize →
      ∃ n, deliverFile fileSize fileBytes = Delivery.parts n ∧ 2 ≤ n) := by
  constructor
  · intro hle
    unfold deliverFile
    rw [if_neg (by omega)]
  · intro hgt
    refine ⟨(splitFile fileBytes).length, ?_, ?_⟩
    · unfold deliverFile
      rw [if_pos (by omega)]
    · unfold splitFile
      have hm : 0 < MAX_PART_BYTES := by norm_num [MAX_PART_BYTES]
      rw [split_length MAX_PART_BYTES hm fileBytes, hlen,
        Nat.le_div_iff_mul_le hm]
      unfold MAX_PART_BYTES
      omega

/-- Witness for `split_threshold_policy`: a file one byte over the 2 GiB
threshold is split into at least two parts. -/
theorem split_threshold_policy_witness :
    (List.replicate (2 * 1024 * 1024 * 1024 + 1) (0 : Nat)).length =
      2 * 1024 * 1024 * 1024 + 1 ∧
    2 * 1024 * 1024 * 1024 < 2 * 1024 * 1024 * 1024 + 1 ∧
    (∃ n, deliverFile (2 * 1024 * 1024 * 1024 + 1)
        (List.replicate (2 * 1024 * 1024 * 1024 + 1) (0 : Nat)) = Delivery.parts n ∧ 2 ≤ n) :=
  ⟨List.length_replicate (2 * 1024 * 1024 * 1024 + 1) (0 : Nat),
    Nat.lt_succ_self (2 * 1024 * 1024 * 1024),
    (split_threshold_policy (2 * 1024 * 1024 * 1024 + 1)
        (List.replicate (2 * 1024 * 1024 * 1024 + 1) (0 : Nat))
        (List.length_replicate (2 * 1024 * 1024 * 1024 + 1) (0 : Nat))).2
      (Nat.lt_succ_self (2 * 1024 * 1024 * 1024))⟩

end AnimeBot
